import Mathlib

/-!
Verification of the 7-segment display device-state protocol implemented in
`app/build/gui.py` (repository SevensegLKM).

The core of the program is:
* `SEGMENT_BITS`, the per-segment one-bit masks (segments A..G);
* `send_to_device`, which renders the integer state as a zero-padded 8-bit
  binary string and writes it to the device file;
* `read_from_device`, which reads up to 8 bytes, strips trailing NUL bytes,
  appends `'0'` and parses the result with `int(_, 2)`;
* `toggle_segment`, which flips one segment bit of the in-memory state with
  XOR and then attempts the device write.

The GUI (Tkinter windows, buttons, images) is out of scope; the device file
itself is modelled as an external collaborator: each I/O operation either
succeeds, delivering/accepting bytes, or raises `IOError`, and that outcome
is an explicit parameter (`ioOk` for writes, an `Option` of raw bytes for
reads).

Raw device bytes are modelled as `List Char` on the ASCII plane, where
Python's `bytes.decode()` is the identity.  `int(s, 2)` is modelled with its
full ASCII-plane behaviour: surrounding whitespace, an optional sign, an
optional `0b`/`0B` prefix and underscore digit separators are accepted, and
the parsed value can be negative — so the in-memory state, a Python `int`,
is modelled as `Int` where negative values are reachable (the `Nat`-valued
`toggle_segment` below is the same function on the non-negative states
produced by well-formed frames).  Bytes ≥ 0x80 enter Python's UTF-8 and
Unicode tables (multi-byte decoding, Unicode whitespace and digits) and are
outside the model; theorems about the read path therefore carry an explicit
ASCII hypothesis marking the domain on which the model is exact.
-/

namespace SevensegLKM

/-- `SEGMENT_BITS` from gui.py: the binary words for segments A through G,
`[0b10000000, 0b01000000, 0b00100000, 0b00010000, 0b00001000, 0b00000100, 0b00000010]`. -/
def SEGMENT_BITS : List Nat := [128, 64, 32, 16, 8, 4, 2]

/-- Python list subscription `xs[i]`: non-negative indices are positional,
negative indices count from the end of the list (`xs[-k]` is
`xs[len - k]` when `k ≤ len`); any other index raises `IndexError`,
modelled as `none`. -/
def pyGet (xs : List Nat) (i : Int) : Option Nat :=
  if 0 ≤ i then xs.get? i.toNat
  else if (-i).toNat ≤ xs.length then xs.get? (xs.length - (-i).toNat) else none

/-- Python `bin(n)[2:]` for `n ≥ 0`: the minimal binary rendering of `n`,
most-significant bit first (`"0"` for `n = 0`).  `Nat.toDigits 2` computes
exactly these digits. -/
def pybin (n : Nat) : List Char := Nat.toDigits 2 n

/-- Python `s.zfill(8)` on a sign-free digit string: left-pad with `'0'` up
to length 8 (a longer string is returned unchanged). -/
def zfill8 (s : List Char) : List Char := List.replicate (8 - s.length) '0' ++ s

/-- The wire frame computed in `send_to_device` for a non-negative state:
`binary_string = bin(data)[2:].zfill(8)`. -/
def encode (data : Nat) : List Char := zfill8 (pybin data)

/-- Outcome of one `send_to_device` call: either the frame was written, or the
`IOError` was caught and reported by printing.  Both constructors are normal
returns — `send_to_device` never terminates the process. -/
inductive WriteOutcome where
  | written (frame : List Char)
  | reportedError
deriving DecidableEq

/-- `send_to_device(data)` from gui.py on a non-negative state.  `ioOk` models
whether opening and writing the device file succeeds; on failure the
`except IOError` branch prints the error and returns normally. -/
def send_to_device (data : Nat) (ioOk : Bool) : WriteOutcome :=
  if ioOk then .written (encode data) else .reportedError

/-- Typed decode failure: Python raises `ValueError` from `int(s, 2)` when the
string is not an integer literal; the spec names this `MalformedFrame`. -/
inductive DecodeError where
  | MalformedFrame
deriving DecidableEq

/-- The ASCII whitespace characters Python's `int` ignores around a numeric
literal: 0x09–0x0D and the space 0x20. -/
def pySpace (c : Char) : Bool :=
  c = ' ' || c = '\t' || c = '\n' || c = '\x0b' || c = '\x0c' || c = '\r'

/-- Strip the leading and trailing whitespace Python's `int` ignores. -/
def stripSpaces (s : List Char) : List Char :=
  ((s.dropWhile pySpace).reverse.dropWhile pySpace).reverse

/-- Consume the optional leading sign of an integer literal, returning the
sign factor and the remaining characters. -/
def parseSign (s : List Char) : Int × List Char :=
  match s with
  | c :: t => if c = '+' then (1, t) else if c = '-' then (-1, t) else (1, c :: t)
  | [] => (1, [])

/-- Consume an optional `0b`/`0B` base prefix of a binary literal; a single
underscore directly after the prefix is also consumed (PEP 515). -/
def dropPrefixB (s : List Char) : List Char :=
  match s with
  | c0 :: c1 :: t =>
    if c0 = '0' ∧ (c1 = 'b' ∨ c1 = 'B') then
      match t with
      | c2 :: t2 => if c2 = '_' then t2 else c2 :: t2
      | [] => []
    else c0 :: c1 :: t
  | other => other

/-- One step of scanning the digit part of a binary literal: binary digits
accumulate into the value; a single underscore is allowed only directly
after a digit; any other character fails the parse.  The state is
`(value, seen-a-digit, last-was-underscore)`. -/
def digitStep (st : Option (Nat × Bool × Bool)) (c : Char) :
    Option (Nat × Bool × Bool) :=
  match st with
  | none => none
  | some (acc, seen, prevU) =>
    if c = '0' then some (2 * acc, true, false)
    else if c = '1' then some (2 * acc + 1, true, false)
    else if c = '_' then (if seen && !prevU then some (acc, seen, true) else none)
    else none

/-- The digit part of a binary literal: at least one binary digit, with single
underscores only between digits (no leading, trailing or doubled
underscore). -/
def parseDigits (s : List Char) : Option Nat :=
  match s.foldl digitStep (some (0, false, false)) with
  | some (acc, seen, prevU) => if seen && !prevU then some acc else none
  | none => none

/-- Python `int(s, 2)` on the ASCII plane: strip surrounding whitespace, then
an optional sign, then an optional `0b`/`0B` prefix, then binary digits
with underscore separators; anything else raises `ValueError`, modelled as
`MalformedFrame`.  The parsed value can be negative. -/
def int2 (s : List Char) : Except DecodeError Int :=
  match parseDigits (dropPrefixB (parseSign (stripSpaces s)).2) with
  | some v => .ok ((parseSign (stripSpaces s)).1 * (v : Int))
  | none => .error .MalformedFrame

/-- Python `s.rstrip('\x00')`: remove every trailing NUL character. -/
def rstripNul (s : List Char) : List Char :=
  (s.reverse.dropWhile (fun c => c = '\x00')).reverse

/-- The byte-to-mask routine of the read path in `read_from_device`:
`int(raw.decode().rstrip('\x00') + '0', 2)`.  Note the `'0'` is appended
unconditionally, not only on short reads. -/
def decode (raw : List Char) : Except DecodeError Int :=
  int2 (rstripNul raw ++ ['0'])

/-- The ASCII characters Python's binary-literal syntax can consume at all:
the binary digits, a sign, an underscore separator, the letters of the
`0b`/`0B` prefix, and whitespace. -/
def pyAlphabet (c : Char) : Bool :=
  c = '0' || c = '1' || c = '+' || c = '-' || c = '_' || c = 'b' || c = 'B' ||
    pySpace c

/-- Outcome of one `read_from_device()` call: a successfully decoded state, a
decode failure (`ValueError` propagating to the caller — the `try` only
catches `IOError`), or `exit()` on an I/O failure. -/
inductive ReadOutcome where
  | ok (state : Int)
  | malformed
  | fatalExit
deriving DecidableEq

/-- `read_from_device()` from gui.py.  The argument is the outcome of the
device I/O: `none` when opening/reading raises `IOError` (the code then
calls `exit()`), `some raw` for the at-most-8 bytes actually read. -/
def read_from_device (io : Option (List Char)) : ReadOutcome :=
  match io with
  | none => .fatalExit
  | some raw =>
    match decode raw with
    | .ok n => .ok n
    | .error _ => .malformed

/-- `toggle_segment` from gui.py, restricted to its state effect on the
non-negative states produced by well-formed frames: look up
`SEGMENT_BITS[segment_index - 1]` (Python indexing — `none` models the
uncaught `IndexError`), flip that bit of the state with XOR, then call
`send_to_device` with the new state.  The GUI image update is out of scope.
The new in-memory state (the global `segment_state`) is returned together
with the write outcome. -/
def toggle_segment (state : Nat) (segment_index : Int) (ioOk : Bool) :
    Option (Nat × WriteOutcome) :=
  match pyGet SEGMENT_BITS (segment_index - 1) with
  | none => none
  | some segment_bit =>
    let newState := state ^^^ segment_bit
    some (newState, send_to_device newState ioOk)

/-- Python's bitwise XOR on arbitrary-precision signed integers: two's
complement with infinite sign extension, using `~x = -x - 1`. -/
def pyXor (a b : Int) : Int :=
  if 0 ≤ a then
    if 0 ≤ b then ((a.toNat ^^^ b.toNat : Nat) : Int)
    else -((a.toNat ^^^ (-b - 1).toNat : Nat) : Int) - 1
  else
    if 0 ≤ b then -(((-a - 1).toNat ^^^ b.toNat : Nat) : Int) - 1
    else (((-a - 1).toNat ^^^ (-b - 1).toNat : Nat) : Int)

/-- Python `bin(d)[2:]` for any integer `d`: for `d ≥ 0` the binary digits;
for `d < 0`, `bin` renders `-0b…` and slicing off the first two characters
leaves `b` followed by the digits of `|d|`. -/
def pybinInt (d : Int) : List Char :=
  if 0 ≤ d then pybin d.toNat else 'b' :: pybin (-d).toNat

/-- The wire frame `bin(data)[2:].zfill(8)` for a possibly negative state. -/
def encodeInt (data : Int) : List Char := zfill8 (pybinInt data)

/-- `send_to_device(data)` on the full `int` state (the Python global can be
negative after a signed device read). -/
def send_to_device_int (data : Int) (ioOk : Bool) : WriteOutcome :=
  if ioOk then .written (encodeInt data) else .reportedError

/-- `toggle_segment` on the full `int`-valued Python state: the same lookup
and bit flip, with Python's signed XOR.  On non-negative states it agrees
with `toggle_segment`. -/
def toggle_segment_int (state : Int) (segment_index : Int) (ioOk : Bool) :
    Option (Int × WriteOutcome) :=
  match pyGet SEGMENT_BITS (segment_index - 1) with
  | none => none
  | some segment_bit =>
    let newState := pyXor state (segment_bit : Int)
    some (newState, send_to_device_int newState ioOk)

/-- Run a sequence of toggle requests from an initial (possibly negative)
state, tracking only the in-memory mask (the state effect of a toggle does
not depend on the write outcome); `none` if any lookup raises. -/
def runToggles (state : Int) : List Int → Option Int
  | [] => some state
  | i :: rest =>
    match toggle_segment_int state i true with
    | none => none
    | some (s, _) => runToggles s rest

/-- Raw bytes `"1010101"` (7 chars): a NUL-padded short read of the frame
`"10101010"`. -/
def sevenOneZeroPat : List Char := ['1', '0', '1', '0', '1', '0', '1']

/-- Raw bytes `"10101010"`: a full 8-character frame. -/
def eightOneZeroPat : List Char := ['1', '0', '1', '0', '1', '0', '1', '0']

/-- Raw bytes `"11111111"`: the full frame with all segment bits (and bit 0)
set. -/
def allOnes8 : List Char := ['1', '1', '1', '1', '1', '1', '1', '1']

/-- Raw bytes `"+101010"`: a signed literal the Python parser accepts. -/
def plusPat : List Char := ['+', '1', '0', '1', '0', '1', '0']

/-- Raw bytes `"-101010"`: a negative literal the Python parser accepts. -/
def minusPat : List Char := ['-', '1', '0', '1', '0', '1', '0']

/-! ## Helper lemmas -/

/-- Folding the digit scanner from a failed state stays failed. -/
lemma foldl_digitStep_none (s : List Char) :
    s.foldl digitStep none = none := by
  induction s with
  | nil => rfl
  | cons c t ih => exact ih

/-- A string containing any character other than a binary digit or an
underscore fails the digit scan, from any state. -/
lemma foldl_digitStep_bad (s : List Char)
    (h : ∃ c ∈ s, ¬(c = '0' ∨ c = '1' ∨ c = '_'))
    (st : Option (Nat × Bool × Bool)) :
    s.foldl digitStep st = none := by
  induction s generalizing st with
  | nil => simp at h
  | cons a t ih =>
    rcases h with ⟨d, hd, hbad⟩
    rcases List.mem_cons.mp hd with h1 | h2
    · subst h1
      push_neg at hbad
      have hstep : digitStep st d = none := by
        cases st with
        | none => rfl
        | some p =>
          obtain ⟨acc, seen, prevU⟩ := p
          simp [digitStep, hbad.1, hbad.2.1, hbad.2.2]
      show t.foldl digitStep (digitStep st d) = none
      rw [hstep, foldl_digitStep_none]
    · exact ih ⟨d, h2, hbad⟩ _

/-- The digit part fails outright on a non-digit, non-underscore character. -/
lemma parseDigits_bad (s : List Char)
    (h : ∃ c ∈ s, ¬(c = '0' ∨ c = '1' ∨ c = '_')) :
    parseDigits s = none := by
  unfold parseDigits
  rw [foldl_digitStep_bad s h]

/-- A digit string ending in the digit `'0'` parses to an even value. -/
lemma parseDigits_append_zero (l : List Char) (v : Nat)
    (h : parseDigits (l ++ ['0']) = some v) : v % 2 = 0 := by
  unfold parseDigits at h
  rw [List.foldl_append] at h
  cases hst : l.foldl digitStep (some (0, false, false)) with
  | none =>
    rw [hst] at h
    have hz : List.foldl digitStep (none : Option (Nat × Bool × Bool)) ['0']
        = none := rfl
    rw [hz] at h
    exact absurd h (by simp)
  | some p =>
    obtain ⟨acc, seen, prevU⟩ := p
    rw [hst] at h
    have hred : List.foldl digitStep (some (acc, seen, prevU)) ['0']
        = some (2 * acc, true, false) := rfl
    rw [hred] at h
    simp at h
    omega

/-- A character that does not satisfy the predicate survives `dropWhile`. -/
lemma mem_dropWhile (p : Char → Bool) (c : Char) (hc : p c = false) :
    ∀ l : List Char, c ∈ l → c ∈ l.dropWhile p := by
  intro l
  induction l with
  | nil => intro h; exact absurd h (List.not_mem_nil c)
  | cons a t ih =>
    intro hmem
    cases ha : p a with
    | true =>
      rw [List.dropWhile_cons_of_pos ha]
      rcases List.mem_cons.mp hmem with h1 | h2
      · rw [h1] at hc; exact absurd ha (by simp [hc])
      · exact ih h2
    | false =>
      rw [List.dropWhile_cons_of_neg (by simp [ha])]
      exact hmem

/-- A non-whitespace character survives the whitespace stripping. -/
lemma mem_stripSpaces (c : Char) (hc : pySpace c = false) (s : List Char)
    (hmem : c ∈ s) : c ∈ stripSpaces s := by
  unfold stripSpaces
  have h1 := mem_dropWhile pySpace c hc s hmem
  have h2 : c ∈ (s.dropWhile pySpace).reverse := List.mem_reverse.mpr h1
  have h3 := mem_dropWhile pySpace c hc _ h2
  exact List.mem_reverse.mpr h3

/-- A character that is not a sign survives the sign consumer. -/
lemma mem_parseSign_snd (c : Char) (hplus : c ≠ '+') (hminus : c ≠ '-') :
    ∀ s : List Char, c ∈ s → c ∈ (parseSign s).2 := by
  intro s hmem
  cases s with
  | nil => exact absurd hmem (List.not_mem_nil c)
  | cons a t =>
    simp only [parseSign]
    rcases List.mem_cons.mp hmem with h1 | h2
    · rw [← h1, if_neg hplus, if_neg hminus]
      exact List.mem_cons_self c t
    · split_ifs
      · exact h2
      · exact h2
      · exact List.mem_cons_of_mem a h2

/-- A character outside the prefix letters survives the prefix consumer. -/
lemma mem_dropPrefixB (c : Char) (h0 : c ≠ '0') (hb : c ≠ 'b') (hB : c ≠ 'B')
    (hu : c ≠ '_') : ∀ s : List Char, c ∈ s → c ∈ dropPrefixB s := by
  intro s hmem
  cases s with
  | nil => exact hmem
  | cons c0 r =>
    cases r with
    | nil => exact hmem
    | cons c1 t =>
      simp only [dropPrefixB]
      by_cases hpre : c0 = '0' ∧ (c1 = 'b' ∨ c1 = 'B')
      · rw [if_pos hpre]
        obtain ⟨hc0, hc1⟩ := hpre
        have hct : c ∈ t := by
          rcases List.mem_cons.mp hmem with h1 | h2
          · exact absurd (h1.trans hc0) h0
          · rcases List.mem_cons.mp h2 with h3 | h4
            · rcases hc1 with hh | hh
              · exact absurd (h3.trans hh) hb
              · exact absurd (h3.trans hh) hB
            · exact h4
        cases t with
        | nil => exact absurd hct (List.not_mem_nil c)
        | cons c2 t2 =>
          show c ∈ (if c2 = '_' then t2 else c2 :: t2)
          by_cases h2 : c2 = '_'
          · rw [if_pos h2]
            rcases List.mem_cons.mp hct with h5 | h6
            · exact absurd (h5.trans h2) hu
            · exact h6
          · rw [if_neg h2]
            exact hct
      · rw [if_neg hpre]
        exact hmem

/-- Dropping leading whitespace preserves a trailing appended `'0'`. -/
lemma dropWhile_pySpace_append_zero (l : List Char) :
    ∃ l2, List.dropWhile pySpace (l ++ ['0']) = l2 ++ ['0'] := by
  induction l with
  | nil => exact ⟨[], rfl⟩
  | cons a t ih =>
    rw [List.cons_append]
    cases ha : pySpace a with
    | true =>
      rw [List.dropWhile_cons_of_pos ha]
      exact ih
    | false =>
      rw [List.dropWhile_cons_of_neg (by simp [ha])]
      exact ⟨a :: t, rfl⟩

/-- Whitespace stripping preserves a trailing appended `'0'`. -/
lemma stripSpaces_append_zero (l : List Char) :
    ∃ l2, stripSpaces (l ++ ['0']) = l2 ++ ['0'] := by
  obtain ⟨l1, h1⟩ := dropWhile_pySpace_append_zero l
  unfold stripSpaces
  rw [h1, List.reverse_append, List.reverse_singleton, List.singleton_append]
  rw [List.dropWhile_cons_of_neg (by decide)]
  rw [List.reverse_cons]
  exact ⟨l1.reverse.reverse, rfl⟩

/-- The sign consumer preserves a trailing appended `'0'`. -/
lemma parseSign_append_zero (l : List Char) :
    ∃ l2, (parseSign (l ++ ['0'])).2 = l2 ++ ['0'] := by
  cases l with
  | nil => exact ⟨[], rfl⟩
  | cons a t =>
    rw [List.cons_append]
    simp only [parseSign]
    split_ifs
    · exact ⟨t, rfl⟩
    · exact ⟨t, rfl⟩
    · exact ⟨a :: t, rfl⟩

/-- The prefix consumer preserves a trailing appended `'0'`. -/
lemma dropPrefixB_append_zero (l : List Char) :
    ∃ l2, dropPrefixB (l ++ ['0']) = l2 ++ ['0'] := by
  cases l with
  | nil => exact ⟨[], rfl⟩
  | cons c0 r =>
    cases r with
    | nil =>
      rw [List.cons_append, List.nil_append]
      simp only [dropPrefixB]
      rw [if_neg (by rintro ⟨-, h | h⟩ <;> exact absurd h (by decide))]
      exact ⟨[c0], rfl⟩
    | cons c1 t =>
      rw [List.cons_append, List.cons_append]
      simp only [dropPrefixB]
      by_cases hpre : c0 = '0' ∧ (c1 = 'b' ∨ c1 = 'B')
      · rw [if_pos hpre]
        cases t with
        | nil => exact ⟨[], rfl⟩
        | cons c2 t2 =>
          show ∃ l2, (if c2 = '_' then t2 ++ ['0'] else c2 :: (t2 ++ ['0']))
              = l2 ++ ['0']
          by_cases h2 : c2 = '_'
          · rw [if_pos h2]
            exact ⟨t2, rfl⟩
          · rw [if_neg h2]
            exact ⟨c2 :: t2, rfl⟩
      · rw [if_neg hpre]
        exact ⟨c0 :: c1 :: t, rfl⟩

/-- The sign factor is always `1` or `-1`. -/
lemma parseSign_fst (s : List Char) :
    (parseSign s).1 = 1 ∨ (parseSign s).1 = -1 := by
  cases s with
  | nil => exact Or.inl rfl
  | cons a t =>
    simp only [parseSign]
    split_ifs <;> simp

/-- Parsing a string that ends in the appended `'0'` yields an even value
(positive or negative). -/
lemma int2_append_zero_even (l : List Char) (n : Int)
    (h : int2 (l ++ ['0']) = Except.ok n) : n % 2 = 0 := by
  unfold int2 at h
  obtain ⟨l1, hl1⟩ := stripSpaces_append_zero l
  rw [hl1] at h
  obtain ⟨l2, hl2⟩ := parseSign_append_zero l1
  rw [hl2] at h
  obtain ⟨l3, hl3⟩ := dropPrefixB_append_zero l2
  rw [hl3] at h
  cases hv : parseDigits (l3 ++ ['0']) with
  | none =>
    rw [hv] at h
    exact absurd h (by simp)
  | some v =>
    rw [hv] at h
    simp at h
    have hev := parseDigits_append_zero l3 v hv
    rcases parseSign_fst (l1 ++ ['0']) with hs | hs <;> rw [hs] at h <;> omega

/-- Any successfully decoded value is even: the parsed string always ends in
the unconditionally appended `'0'`. -/
lemma decode_even_aux (raw : List Char) (n : Int)
    (h : decode raw = Except.ok n) : n % 2 = 0 :=
  int2_append_zero_even (rstripNul raw) n h

/-- The segment-bit lookup for a valid 1-based index `i` yields the single-bit
mask `2 ^ (8 - i)`. -/
lemma segBit_eq (i : Int) (h1 : 1 ≤ i) (h2 : i ≤ 7) :
    pyGet SEGMENT_BITS (i - 1) = some (2 ^ (8 - i).toNat) := by
  interval_cases i <;> rfl

/-- Closed form of `toggle_segment` on a valid index. -/
lemma toggle_segment_eq (state : Nat) (i : Int) (ioOk : Bool)
    (h1 : 1 ≤ i) (h2 : i ≤ 7) :
    toggle_segment state i ioOk =
      some (state ^^^ 2 ^ (8 - i).toNat,
        send_to_device (state ^^^ 2 ^ (8 - i).toNat) ioOk) := by
  unfold toggle_segment
  rw [segBit_eq i h1 h2]

/-- Closed form of `toggle_segment_int` on a valid index. -/
lemma toggle_segment_int_eq (state : Int) (i : Int) (ioOk : Bool)
    (h1 : 1 ≤ i) (h2 : i ≤ 7) :
    toggle_segment_int state i ioOk =
      some (pyXor state ((2 ^ (8 - i).toNat : Nat) : Int),
        send_to_device_int (pyXor state ((2 ^ (8 - i).toNat : Nat) : Int)) ioOk) := by
  unfold toggle_segment_int
  rw [segBit_eq i h1 h2]

/-- XOR with a single-bit mask leaves every other bit position unchanged. -/
lemma testBit_xor_pow_ne (a k p : Nat) (h : p ≠ k) :
    (a ^^^ 2 ^ k).testBit p = a.testBit p := by
  rw [Nat.testBit_xor, Nat.testBit_two_pow]
  simp [Ne.symm h]

/-- XOR with a single-bit mask flips exactly that bit position. -/
lemma testBit_xor_pow_self (a k : Nat) :
    (a ^^^ 2 ^ k).testBit k = !a.testBit k := by
  rw [Nat.testBit_xor, Nat.testBit_two_pow]
  simp

/-- XOR of two even numbers is even. -/
lemma xor_even (a b : Nat) (ha : a % 2 = 0) (hb : b % 2 = 0) :
    (a ^^^ b) % 2 = 0 := by
  rw [Nat.xor_mod_two_eq]
  omega

/-- Every segment bit mask is even (bit 0 is never a segment bit). -/
lemma segPow_even (i : Int) (h1 : 1 ≤ i) (h2 : i ≤ 7) :
    (2 ^ (8 - i).toNat) % 2 = 0 := by
  interval_cases i <;> decide

/-- Python's signed XOR with an even mask preserves evenness of the state. -/
lemma pyXor_even (s : Int) (b : Nat) (hs : s % 2 = 0) (hb : b % 2 = 0) :
    pyXor s (b : Int) % 2 = 0 := by
  unfold pyXor
  by_cases h1 : 0 ≤ s
  · rw [if_pos h1, if_pos (Int.natCast_nonneg b)]
    have hsn : s.toNat % 2 = 0 := by omega
    have hbn : (b : Int).toNat % 2 = 0 := by omega
    have hx := xor_even s.toNat (b : Int).toNat hsn hbn
    omega
  · rw [if_neg h1, if_pos (Int.natCast_nonneg b)]
    have hm : (-s - 1).toNat % 2 = 1 := by omega
    have hbn : (b : Int).toNat % 2 = 0 := by omega
    have hx : ((-s - 1).toNat ^^^ (b : Int).toNat) % 2 = 1 := by
      rw [Nat.xor_mod_two_eq]; omega
    omega

/-- A sequence of valid toggles preserves evenness of the state mask. -/
lemma runToggles_even : ∀ (idxs : List Int) (state : Int), state % 2 = 0 →
    (∀ i ∈ idxs, 1 ≤ i ∧ i ≤ 7) →
    ∀ m, runToggles state idxs = some m → m % 2 = 0 := by
  intro idxs
  induction idxs with
  | nil =>
    intro state hs _ m hm
    have : state = m := Option.some.inj hm
    omega
  | cons i t ih =>
    intro state hs hvalid m hm
    obtain ⟨h1, h2⟩ := hvalid i (List.mem_cons_self i t)
    unfold runToggles at hm
    rw [toggle_segment_int_eq state i true h1 h2] at hm
    exact ih _ (pyXor_even state _ hs (segPow_even i h1 h2))
      (fun j hj => hvalid j (List.mem_cons_of_mem i hj)) m hm

/-- `Nat.toDigitsCore` only prepends digits in front of the accumulator. -/
lemma toDigitsCore_append (fuel : Nat) : ∀ (n : Nat) (ds : List Char),
    ∃ l, Nat.toDigitsCore 2 fuel n ds = l ++ ds := by
  induction fuel with
  | zero => intro n ds; exact ⟨[], rfl⟩
  | succ f ih =>
    intro n ds
    simp only [Nat.toDigitsCore]
    by_cases h : n / 2 = 0
    · rw [if_pos h]
      exact ⟨[Nat.digitChar (n % 2)], rfl⟩
    · rw [if_neg h]
      obtain ⟨l, hl⟩ := ih (n / 2) (Nat.digitChar (n % 2) :: ds)
      refine ⟨l ++ [Nat.digitChar (n % 2)], ?_⟩
      rw [hl, List.append_assoc]
      rfl

/-- The binary rendering of an even number ends in the digit `'0'`. -/
lemma pybin_ends_zero (m : Nat) (hm : m % 2 = 0) :
    ∃ l, pybin m = l ++ ['0'] := by
  have hd : Nat.digitChar (m % 2) = '0' := by rw [hm]; rfl
  unfold pybin Nat.toDigits
  simp only [Nat.toDigitsCore]
  by_cases h : m / 2 = 0
  · rw [if_pos h, hd]
    exact ⟨[], rfl⟩
  · rw [if_neg h, hd]
    obtain ⟨l, hl⟩ := toDigitsCore_append m (m / 2) ['0']
    exact ⟨l, hl⟩

/-- The wire frame of an even non-negative mask ends in the character `'0'`. -/
lemma encode_getLast_even (m : Nat) (hm : m % 2 = 0) :
    (encode m).getLast? = some '0' := by
  obtain ⟨l, hl⟩ := pybin_ends_zero m hm
  unfold encode zfill8
  rw [hl, ← List.append_assoc]
  exact List.getLast?_concat _

/-- The wire frame of an even state ends in `'0'` also for negative states,
where `bin(d)[2:]` is `b` followed by the digits of `|d|`. -/
lemma encodeInt_getLast_even (m : Int) (hm : m % 2 = 0) :
    (encodeInt m).getLast? = some '0' := by
  unfold encodeInt pybinInt
  by_cases h : 0 ≤ m
  · rw [if_pos h]
    exact encode_getLast_even m.toNat (by omega)
  · rw [if_neg h]
    obtain ⟨l, hl⟩ := pybin_ends_zero (-m).toNat (by omega)
    rw [hl]
    unfold zfill8
    rw [← List.cons_append, ← List.append_assoc]
    exact List.getLast?_concat _

/-! ## Claim theorems -/

/-- C1: the round-trip law fails on the code.  For the valid BitMask 170
(`0b10101010`, bit 0 clear), decoding the wire frame produced by encoding
yields 340 = 2·170, not 170: `read_from_device` appends `'0'` to the
NUL-stripped bytes unconditionally, so a full 8-character frame is parsed
as a 9-digit numeral. -/
theorem decode_encode_not_id :
    decode (encode 170) = Except.ok 340 ∧ (340 : Nat) ≠ 170 :=
  ⟨rfl, by decide⟩

/-- C2: the short-read equation fails on the code.  The 7 characters
`"1010101"` followed by a NUL decode to 170, but the full 8-character
input `"10101010"` decodes to 340: the `'0'` pad is appended
unconditionally, not only when the NUL-stripped string is shorter than 8
characters. -/
theorem decode_short_vs_full :
    decode (sevenOneZeroPat ++ ['\x00']) = Except.ok 170 ∧
    decode eightOneZeroPat = Except.ok 340 ∧
    (170 : Nat) ≠ 340 :=
  ⟨rfl, rfl, by decide⟩

/-- C3 counterexample: the claim fails at the raw bytes `"+101010"`.  The
character `'+'` survives NUL-stripping and is not `'0'`/`'1'`, yet the
program does not fail: Python's `int(s, 2)` accepts a leading sign, so the
read succeeds and returns 84. -/
theorem decode_plus_sign_accepted :
    ('+' ∈ rstripNul plusPat ∧ '+' ≠ '0' ∧ '+' ≠ '1') ∧
    decode plusPat = Except.ok 84 :=
  ⟨by decide, rfl⟩

/-- C3 amended: decoding ASCII bytes that contain, after stripping trailing
NUL bytes, a character Python's integer-literal syntax cannot consume at
all — anything other than `'0'`, `'1'`, a sign, an underscore, the
`b`/`B` of a base prefix, or whitespace — fails with the typed
`MalformedFrame` error, and `read_from_device` surfaces it to its caller
(the propagating `ValueError` is not caught and does not hit the `exit()`
branch, which is reserved for `IOError`). -/
theorem decode_nonliteral_malformed (raw : List Char)
    (hascii : ∀ d ∈ raw, d.toNat < 128) (c : Char)
    (hmem : c ∈ rstripNul raw) (hc : pyAlphabet c = false) :
    decode raw = Except.error DecodeError.MalformedFrame ∧
    read_from_device (some raw) = ReadOutcome.malformed := by
  have h0 : c ≠ '0' := fun h => by rw [h] at hc; exact absurd hc (by decide)
  have h1 : c ≠ '1' := fun h => by rw [h] at hc; exact absurd hc (by decide)
  have hplus : c ≠ '+' := fun h => by rw [h] at hc; exact absurd hc (by decide)
  have hminus : c ≠ '-' := fun h => by rw [h] at hc; exact absurd hc (by decide)
  have hund : c ≠ '_' := fun h => by rw [h] at hc; exact absurd hc (by decide)
  have hb : c ≠ 'b' := fun h => by rw [h] at hc; exact absurd hc (by decide)
  have hB : c ≠ 'B' := fun h => by rw [h] at hc; exact absurd hc (by decide)
  have hsp : pySpace c = false := by
    cases hspc : pySpace c with
    | false => rfl
    | true =>
      have hTrue : pyAlphabet c = true := by simp [pyAlphabet, hspc]
      rw [hTrue] at hc
      exact Bool.noConfusion hc
  have hm1 : c ∈ rstripNul raw ++ ['0'] := List.mem_append_left _ hmem
  have hm2 := mem_stripSpaces c hsp _ hm1
  have hm3 := mem_parseSign_snd c hplus hminus _ hm2
  have hm4 := mem_dropPrefixB c h0 hb hB hund _ hm3
  have hpd : parseDigits
      (dropPrefixB (parseSign (stripSpaces (rstripNul raw ++ ['0']))).2) = none :=
    parseDigits_bad _ ⟨c, hm4, by tauto⟩
  have hd : decode raw = Except.error DecodeError.MalformedFrame := by
    unfold decode int2
    rw [hpd]
  refine ⟨hd, ?_⟩
  have hred : read_from_device (some raw) =
      match decode raw with
      | Except.ok k => ReadOutcome.ok k
      | Except.error _ => ReadOutcome.malformed := rfl
  rw [hred, hd]

/-- Witness for the amended C3 at the concrete raw byte `'2'`. -/
theorem decode_nonliteral_malformed_witness :
    ((∀ d ∈ (['2'] : List Char), d.toNat < 128) ∧
      '2' ∈ rstripNul ['2'] ∧ pyAlphabet '2' = false) ∧
    (decode ['2'] = Except.error DecodeError.MalformedFrame ∧
      read_from_device (some ['2']) = ReadOutcome.malformed) :=
  ⟨⟨by decide, by decide, by decide⟩,
    decode_nonliteral_malformed ['2'] (by decide) '2' (by decide) (by decide)⟩

/-- C4: the decode postcondition `result < 256` fails on the code.  The
8-byte input `"11111111"` decodes successfully to 510, which is not an
8-bit value: the unconditional `'0'` append turns a full 8-character frame
into a 9-digit numeral. -/
theorem decode_full_frame_overflow :
    allOnes8.length ≤ 8 ∧ decode allOnes8 = Except.ok 510 ∧ ¬(510 < 256) :=
  ⟨by decide, rfl, by decide⟩

/-- C5: best-effort write semantics.  For every state and valid segment index,
`toggle_segment` flips the bit in the in-memory mask and returns the new
mask whether or not the device write succeeds; on write failure it returns
normally (no crash) with the same flipped mask and the failure merely
reported. -/
theorem toggle_best_effort (state : Nat) (i : Int) (ioOk : Bool)
    (h1 : 1 ≤ i) (h2 : i ≤ 7) :
    ∃ bit, pyGet SEGMENT_BITS (i - 1) = some bit ∧
      toggle_segment state i ioOk =
        some (state ^^^ bit, send_to_device (state ^^^ bit) ioOk) ∧
      toggle_segment state i false =
        some (state ^^^ bit, WriteOutcome.reportedError) := by
  refine ⟨2 ^ (8 - i).toNat, segBit_eq i h1 h2,
    toggle_segment_eq state i ioOk h1 h2, ?_⟩
  rw [toggle_segment_eq state i false h1 h2]
  rfl

/-- Witness for C5 at state 5, index 3, failing write. -/
theorem toggle_best_effort_witness :
    ((1 : Int) ≤ 3 ∧ (3 : Int) ≤ 7) ∧
    (∃ bit, pyGet SEGMENT_BITS (3 - 1) = some bit ∧
      toggle_segment 5 3 false =
        some (5 ^^^ bit, send_to_device (5 ^^^ bit) false) ∧
      toggle_segment 5 3 false =
        some (5 ^^^ bit, WriteOutcome.reportedError)) :=
  ⟨by decide, toggle_best_effort 5 3 false (by decide) (by decide)⟩

/-- C6 counterexample: the claim fails at segment index 0.  The bit lookup
`SEGMENT_BITS[0 - 1]` does not fail: Python's negative indexing makes it
return the last element, the segment-7 mask `0b00000010`, and the toggle
proceeds and returns a mask. -/
theorem toggle_index_zero_returns_mask :
    pyGet SEGMENT_BITS ((0 : Int) - 1) = some 2 ∧
    toggle_segment 0 0 true = some (2, WriteOutcome.written (encode 2)) :=
  ⟨rfl, rfl⟩

/-- C6 amended: the bit lookup for segment index 8 fails (uncaught
`IndexError`, no mask returned and no device write attempted), but the
lookup for segment index 0 succeeds via Python negative indexing and
toggles the segment-7 bit `0b00000010` instead of failing. -/
theorem toggle_boundary_amended (state : Nat) (ioOk : Bool) :
    toggle_segment state 8 ioOk = none ∧
    toggle_segment state 0 ioOk =
      some (state ^^^ 2, send_to_device (state ^^^ 2) ioOk) :=
  ⟨rfl, rfl⟩

/-- C7: toggle involution.  For every state mask and valid segment index,
toggling the same segment twice in succession (whatever the two write
outcomes) returns the in-memory mask to its initial value. -/
theorem toggle_twice_restores (state : Nat) (i : Int) (a b : Bool)
    (h1 : 1 ≤ i) (h2 : i ≤ 7) :
    ((toggle_segment state i a).bind fun p => toggle_segment p.1 i b).map
      Prod.fst = some state := by
  rw [toggle_segment_eq state i a h1 h2]
  show ((toggle_segment (state ^^^ 2 ^ (8 - i).toNat) i b).map Prod.fst) = some state
  rw [toggle_segment_eq _ i b h1 h2]
  show some (state ^^^ 2 ^ (8 - i).toNat ^^^ 2 ^ (8 - i).toNat) = some state
  rw [Nat.xor_cancel_right]

/-- Witness for C7 at state 6, index 2, one successful and one failing
write. -/
theorem toggle_twice_restores_witness :
    ((1 : Int) ≤ 2 ∧ (2 : Int) ≤ 7) ∧
    ((toggle_segment 6 2 true).bind fun p => toggle_segment p.1 2 false).map
      Prod.fst = some 6 :=
  ⟨by decide, toggle_twice_restores 6 2 true false (by decide) (by decide)⟩

/-- C8: single-bit frame effect.  For every valid segment index `i`, the
looked-up mask is exactly `2 ^ (8 - i)` (a single set bit, distinct from
every other valid index's mask), the toggle XORs the state with it, and
only bit `8 - i` of the state changes — every other bit position is
untouched. -/
theorem toggle_single_bit_effect (state : Nat) (i : Int) (ioOk : Bool)
    (h1 : 1 ≤ i) (h2 : i ≤ 7) :
    ∃ bit, pyGet SEGMENT_BITS (i - 1) = some bit ∧
      bit = 2 ^ (8 - i).toNat ∧
      (∀ j : Int, 1 ≤ j → j ≤ 7 → j ≠ i →
        pyGet SEGMENT_BITS (j - 1) ≠ some bit) ∧
      (toggle_segment state i ioOk).map Prod.fst = some (state ^^^ bit) ∧
      (∀ p : Nat, p ≠ (8 - i).toNat →
        (state ^^^ bit).testBit p = state.testBit p) ∧
      (state ^^^ bit).testBit (8 - i).toNat = !state.testBit (8 - i).toNat := by
  refine ⟨2 ^ (8 - i).toNat, segBit_eq i h1 h2, rfl, ?_, ?_, ?_, ?_⟩
  · intro j hj1 hj2 hne
    rw [segBit_eq j hj1 hj2]
    intro hcontra
    have hexp : (8 - j).toNat = (8 - i).toNat :=
      Nat.pow_right_injective (le_refl 2) (Option.some.inj hcontra)
    exact hne (by omega)
  · rw [toggle_segment_eq state i ioOk h1 h2]
    rfl
  · intro p hp
    exact testBit_xor_pow_ne state _ p hp
  · exact testBit_xor_pow_self state _

/-- Witness for C8 at state 9, index 4. -/
theorem toggle_single_bit_effect_witness :
    ((1 : Int) ≤ 4 ∧ (4 : Int) ≤ 7) ∧
    (∃ bit, pyGet SEGMENT_BITS ((4 : Int) - 1) = some bit ∧
      bit = 2 ^ ((8 : Int) - 4).toNat ∧
      (∀ j : Int, 1 ≤ j → j ≤ 7 → j ≠ 4 →
        pyGet SEGMENT_BITS (j - 1) ≠ some bit) ∧
      (toggle_segment 9 4 true).map Prod.fst = some (9 ^^^ bit) ∧
      (∀ p : Nat, p ≠ ((8 : Int) - 4).toNat →
        (9 ^^^ bit).testBit p = Nat.testBit 9 p) ∧
      (9 ^^^ bit).testBit ((8 : Int) - 4).toNat
        = !Nat.testBit 9 ((8 : Int) - 4).toNat) :=
  ⟨by decide, toggle_single_bit_effect 9 4 true (by decide) (by decide)⟩

/-- C9: bit-0 invariant.  Every value the state mask takes — the value
produced by a successful startup decode of ASCII device bytes (possibly
negative, after a signed literal) and every value reached from it by a
sequence of valid toggles under Python's signed XOR — is even (bit 0 clear
in two's complement), and consequently the wire frame written for it ends
in the character `'0'`. -/
theorem mask_bit0_invariant (raw : List Char)
    (hascii : ∀ c ∈ raw, c.toNat < 128) (n : Int)
    (hread : decode raw = Except.ok n)
    (idxs : List Int) (hvalid : ∀ i ∈ idxs, 1 ≤ i ∧ i ≤ 7)
    (m : Int) (hrun : runToggles n idxs = some m) :
    n % 2 = 0 ∧ m % 2 = 0 ∧ (encodeInt m).getLast? = some '0' := by
  have hn := decode_even_aux raw n hread
  have hm := runToggles_even idxs n hn hvalid m hrun
  exact ⟨hn, hm, encodeInt_getLast_even m hm⟩

/-- Witness for C9: a startup read of the signed literal `"-101010"` gives
the negative state -84; toggling segment 1 gives -212; both values are
even and their frames end in `'0'`. -/
theorem mask_bit0_invariant_witness :
    ((∀ c ∈ minusPat, c.toNat < 128) ∧
      decode minusPat = Except.ok (-84) ∧
      (∀ i ∈ ([1] : List Int), 1 ≤ i ∧ i ≤ 7) ∧
      runToggles (-84) [1] = some (-212)) ∧
    ((-84 : Int) % 2 = 0 ∧ (-212 : Int) % 2 = 0 ∧
      (encodeInt (-212)).getLast? = some '0') :=
  ⟨⟨by decide, rfl, by decide, rfl⟩,
    mask_bit0_invariant minusPat (by decide) (-84) (by rfl) [1] (by decide) (-212)
      (by rfl)⟩

/-- C10: every successful decode of ASCII device bytes yields an even value.
Whatever ASCII bytes the device returns — including signed, whitespace-
padded, underscore-separated or `0b`-prefixed literals — the parsed string
ends in the unconditionally appended `'0'`, so the least significant bit
of the result is always 0 (also for negative results, in two's
complement). -/
theorem decode_ok_always_even (raw : List Char)
    (hascii : ∀ c ∈ raw, c.toNat < 128) (n : Int)
    (h : decode raw = Except.ok n) : n % 2 = 0 :=
  decode_even_aux raw n h

/-- Witness for C10 at the all-ones frame, which decodes to the even value
510. -/
theorem decode_ok_always_even_witness :
    ((∀ c ∈ allOnes8, c.toNat < 128) ∧ decode allOnes8 = Except.ok 510) ∧
    (510 : Int) % 2 = 0 :=
  ⟨⟨by decide, rfl⟩, decode_ok_always_even allOnes8 (by decide) 510 rfl⟩

end SevensegLKM
